import Mathlib

/-!
Shallow embedding of the mcp-files server (Go): the gitignore-aware file
tree builder, path validation, file content reading, and the multi-query
grep search with raw-output parsing.  The Go standard library path helpers
used by the program (path/filepath Clean, Join, Rel, Base and the strings
package helpers) are modelled as executable Lean functions at the Unix
(slash-separated) level the program runs at.  Filesystem state and the
external grep process are passed as explicit function-valued environments.
-/

/-- Decides whether the first list is a prefix of the second list. -/
def listIsPref : List Char → List Char → Bool
  | [], _ => true
  | _ :: _, [] => false
  | p :: ps, c :: cs => p == c && listIsPref ps cs

/-- Model of Go strings.HasPrefix at the character-list level. -/
def strStarts (s pre : String) : Bool :=
  listIsPref pre.data s.data

/-- Model of Go strings.HasSuffix at the character-list level. -/
def strEnds (s suf : String) : Bool :=
  listIsPref suf.data.reverse s.data.reverse

/-- Substring search on character lists: true when sub occurs contiguously in s. -/
def strContainsList : List Char → List Char → Bool
  | [], sub => sub.isEmpty
  | c :: t, sub => listIsPref sub (c :: t) || strContainsList t sub

/-- Model of Go strings.Contains. -/
def strContains (s sub : String) : Bool :=
  strContainsList s.data sub.data

/-- Model of Go strings.TrimSuffix: removes one trailing occurrence when present. -/
def strTrimSuffixGo (s suf : String) : String :=
  if strEnds s suf then ⟨s.data.take (s.data.length - suf.data.length)⟩ else s

/-- The whitespace set trimmed by Go strings.TrimSpace (unicode.IsSpace,
restricted to the code points that can appear Latin-1 encoded). -/
def isGoSpace (c : Char) : Bool :=
  c == ' ' || c == '\t' || c == '\n' || c == '\x0b' || c == '\x0c' || c == '\r' ||
    c == '\x85' || c == '\xa0'

def trimLeftChars (l : List Char) : List Char := l.dropWhile isGoSpace

def trimRightChars (l : List Char) : List Char := (l.reverse.dropWhile isGoSpace).reverse

/-- Model of Go strings.TrimSpace. -/
def goTrimSpace (s : String) : String :=
  ⟨trimRightChars (trimLeftChars s.data)⟩

/-- Splits a character list at every occurrence of sep, like Go strings.Split;
always returns at least one (possibly empty) part. -/
def splitCharList (sep : Char) : List Char → List (List Char)
  | [] => [[]]
  | c :: t =>
    if c == sep then [] :: splitCharList sep t
    else
      match splitCharList sep t with
      | [] => [[c]]
      | h :: r => (c :: h) :: r

/-- Model of Go strings.Split(s, sep) for a one-character separator. -/
def strSplitChar (sep : Char) (s : String) : List String :=
  (splitCharList sep s.data).map (fun l => ⟨l⟩)

/-- The slash-separated segments of a path string. -/
def strSegs (s : String) : List String :=
  strSplitChar '/' s

/-- Joins path parts with slashes (Go strings.Join(parts, sep) with a slash). -/
def joinSlash : List String → String
  | [] => ""
  | [x] => x
  | x :: xs => x ++ "/" ++ joinSlash xs

/-- True when the path has a parent-directory component as a whole segment. -/
def hasDotDotSegment (s : String) : Bool :=
  (splitCharList '/' s.data).any (fun seg => seg == ['.', '.'])

/-- One step of the lexical stack evaluation behind Go filepath.Clean: the
accumulator holds the output segments in reverse order. -/
def cleanPush (rooted : Bool) (acc : List String) (seg : String) : List String :=
  if seg == "" || seg == "." then acc
  else if seg == ".." then
    match acc with
    | [] => if rooted then [] else [".."]
    | a :: rest => if a == ".." then ".." :: a :: rest else rest
  else seg :: acc

/-- Model of Go filepath.Clean (Unix rules): purely lexical normalization
collapsing empty, dot and dot-dot segments. -/
def goClean (p : String) : String :=
  if p == "" then "."
  else
    let rooted := strStarts p "/"
    let stack := (strSegs p).foldl (cleanPush rooted) []
    let body := joinSlash stack.reverse
    if rooted then "/" ++ body
    else if body == "" then "." else body

/-- Model of Go filepath.Join for two elements: skip empty elements, join the
rest with a slash and Clean the result. -/
def goJoin (a b : String) : String :=
  if a == "" then (if b == "" then "" else goClean b)
  else goClean (a ++ "/" ++ b)

/-- The element sequence Go filepath.Rel compares, for an already-cleaned
path: splitting at slashes, except that the root path contributes a single
empty element and the empty path contributes none. -/
def pathElems (s : String) : List String :=
  if s == "" then []
  else if s == "/" then [""]
  else strSegs s

/-- Length of the longest common prefix of two element lists. -/
def commonPrefLen : List String → List String → Nat
  | a :: as, b :: bs => if a == b then commonPrefLen as bs + 1 else 0
  | _, _ => 0

/-- Model of Go filepath.Rel (Unix rules): Clean both paths, require matching
rootedness, strip the common leading elements and climb with dot-dot segments
for whatever is left of the base.  Returns none where Go returns an error. -/
def goRel (basep targp : String) : Option String :=
  let base0 := goClean basep
  let targ := goClean targp
  if targ == base0 then some "."
  else
    let base := if base0 == "." then "" else base0
    let bSlash := strStarts base "/"
    let tSlash := strStarts targ "/"
    if bSlash != tSlash then none
    else
      let bs := pathElems base
      let ts := pathElems targ
      let k := commonPrefLen bs ts
      let bRest := bs.drop k
      let tRest := ts.drop k
      if bRest.head? == some ".." then none
      else if bRest.isEmpty then some (joinSlash tRest)
      else some (joinSlash (List.replicate bRest.length ".." ++ tRest))

/-- Model of Go filepath.Base: last element of the path after dropping
trailing slashes; "." for the empty path, "/" for all-slash paths. -/
def goBase (p : String) : String :=
  if p == "" then "."
  else
    let cs := p.data.reverse.dropWhile (fun c => c == '/')
    if cs.isEmpty then "/"
    else ⟨(cs.takeWhile (fun c => !(c == '/'))).reverse⟩

/-- The base-relative display path the tree builder stores on a node: the
result of filepath.Rel with its error ignored (Go yields the empty string on
error), and "." replaced by the empty string. -/
def relDisplay (base dirPath : String) : String :=
  let r := (goRel base dirPath).getD ""
  if r == "." then "" else r

example : goClean "a/../b" = "b" := by decide
example : goClean "notes..txt" = "notes..txt" := by decide
example : goClean "" = "." := by decide
example : goClean "/.." = "/" := by decide
example : goClean "../a" = "../a" := by decide
example : goClean "a//b/" = "a/b" := by decide
example : goJoin "/base" "b" = "/base/b" := by decide
example : goRel "/base" "/base/b" = some "b" := by decide
example : goRel "/b" "/b" = some "." := by decide
example : goRel "/a/b" "/c" = some "../../c" := by decide
example : goRel "a" "." = some "../." := by decide
example : goRel ".." "a" = none := by decide
example : goRel "." "a/b" = some "a/b" := by decide
example : goRel "/" "/a" = some "a" := by decide
example : goRel "/a" "/" = some ".." := by decide
example : goRel "a" "/a" = none := by decide
example : goBase "/b/a.txt" = "a.txt" := by decide
example : goBase "/" = "/" := by decide
example : goTrimSpace "  !x \t" = "!x" := by decide
example : hasDotDotSegment "a/../b" = true := by decide
example : hasDotDotSegment "notes..txt" = false := by decide
example : strContains "notes..txt" ".." = true := by decide

/-!
Data model: the structures of the Go program, field for field.  Machine
integers (int64 sizes, line numbers) are modelled as Nat since the program
treats them as non-negative counting values; json presence-or-absence of a
field is an Option.
-/

/-- Server configuration (Go struct Config). -/
structure Config where
  port : String
  basePath : String
  maxFileSize : Nat
  deriving DecidableEq

/-- One grep search query (Go struct GrepQuery). -/
structure GrepQuery where
  pattern : String
  filePattern : Option String
  ignoreCase : Option Bool
  deriving DecidableEq

/-- One line of grep output attributed to a file (Go struct GrepLine). -/
structure GrepLine where
  lineNumber : Nat
  content : String
  isMatch : Bool
  deriving DecidableEq

/-- The lines collected for one file (Go struct GrepMatchResult). -/
structure GrepMatchResult where
  filePath : String
  lines : List GrepLine
  deriving DecidableEq

/-- The outcome of one query (Go struct GrepResult); error is present only
when the query's execution failed. -/
structure GrepResult where
  query : String
  grepMatches : List GrepMatchResult
  error : Option String
  deriving DecidableEq

/-- A node of the built file tree (Go struct FileNode). -/
inductive FileNode where
  | mk (name : String) (ftype : String) (size : Option Nat)
       (children : List FileNode) (path : String)

def FileNode.name : FileNode → String
  | FileNode.mk n _ _ _ _ => n

def FileNode.ftype : FileNode → String
  | FileNode.mk _ t _ _ _ => t

def FileNode.size : FileNode → Option Nat
  | FileNode.mk _ _ s _ _ => s

def FileNode.children : FileNode → List FileNode
  | FileNode.mk _ _ _ c _ => c

def FileNode.path : FileNode → String
  | FileNode.mk _ _ _ _ p => p

/-- Occurrence of a node somewhere inside a built tree (the node itself, or
recursively inside one of its children). -/
inductive NodeMem : FileNode → FileNode → Prop where
  | refl (n : FileNode) : NodeMem n n
  | child {m c n : FileNode} : c ∈ n.children → NodeMem m c → NodeMem m n

/-- What the filesystem reports for an absolute path during the tree walk:
a regular file with its size, or a directory whose listing either succeeds
(os.ReadDir order preserved) or fails.  none models an os.Stat error. -/
inductive FSEntry where
  | file (size : Nat)
  | dir (entries : Option (List String))

/-- The gitignore filter (Go struct GitignoreFilter). -/
structure GitignoreFilter where
  patterns : List String
  basePath : String
  deriving DecidableEq

/-- One line of the ignore file as NewGitignoreFilter processes it: trimmed,
then dropped when empty, a comment, or a negation line. -/
def parseGitignoreLine (l : String) : Option String :=
  let t := goTrimSpace l
  if t == "" || strStarts t "#" || strStarts t "!" then none else some t

/-- Model of NewGitignoreFilter: the seed patterns for the version-control
directory plus the retained ignore-file lines.  The ignore file is passed as
an optional line list; none models an absent or unreadable file. -/
def newGitignoreFilter (basePath : String) (gitignoreLines : Option (List String)) :
    GitignoreFilter :=
  { patterns := [".git", ".git/"] ++ (gitignoreLines.getD []).filterMap parseGitignoreLine
    basePath := basePath }

/-- The hard-coded version-control check of ShouldIgnore on the relative
path: it starts with ".git" or contains "/.git". -/
def gitSegCheck (relPath : String) : Bool :=
  strStarts relPath ".git" || strContains relPath "/.git"

/-- Whether one ignore pattern matches, exactly as the loop body of
ShouldIgnore tests it.  gm is the glob matcher modelling filepath.Match with
its error ignored (the source discards the error, treating it as no match);
no claim depends on glob semantics, so it stays an explicit parameter. -/
def ignorePatternHit (gm : String → String → Bool) (relPath fileName pattern : String) :
    Bool :=
  if strEnds pattern "/" then
    let dirPattern := strTrimSuffixGo pattern "/"
    gm dirPattern fileName || strContains relPath (dirPattern ++ "/")
  else
    gm pattern fileName ||
      (strContains pattern "/" &&
        (gm pattern relPath ||
          (List.range (strSegs relPath).length).any
            (fun i => gm pattern (joinSlash ((strSegs relPath).drop i)))))

/-- Model of GitignoreFilter.ShouldIgnore: fail open when the relative path
is unresolvable, always ignore the version-control directory, then scan the
patterns in order with first match winning. -/
def shouldIgnore (gm : String → String → Bool) (f : GitignoreFilter) (path : String) :
    Bool :=
  match goRel f.basePath path with
  | none => false
  | some relPath =>
    if gitSegCheck relPath then true
    else f.patterns.any (ignorePatternHit gm relPath (goBase path))

/-- Model of buildFileTreeWithFilter.  fs is the filesystem; fuel bounds the
recursion depth (the Go recursion terminates because the real filesystem
tree is finite).  A none result covers both the "entry ignored" nil return
and the error returns, which the caller treats alike by skipping the entry;
an unreadable directory listing likewise produces none. -/
def buildFileTreeWithFilter (gm : String → String → Bool) (cfg : Config)
    (fs : String → Option FSEntry) (filter : GitignoreFilter) :
    Nat → String → Nat → Option FileNode
  | 0, _, _ => none
  | fuel + 1, dirPath, depth =>
    if shouldIgnore gm filter dirPath then none
    else
      match fs dirPath with
      | none => none
      | some (FSEntry.file size) =>
        some (FileNode.mk (goBase dirPath) "file" (some size) []
          (relDisplay cfg.basePath dirPath))
      | some (FSEntry.dir none) => none
      | some (FSEntry.dir (some entries)) =>
        some (FileNode.mk (goBase dirPath) "directory" none
          (entries.filterMap (fun nm =>
            let childPath := goJoin dirPath nm
            if shouldIgnore gm filter childPath then none
            else buildFileTreeWithFilter gm cfg fs filter fuel childPath (depth + 1)))
          (relDisplay cfg.basePath dirPath))

/-- Model of handleReadFileStructure: build the filter from the base
directory's ignore file and walk the base directory. -/
def handleReadFileStructure (gm : String → String → Bool) (cfg : Config)
    (fs : String → Option FSEntry) (gitignoreLines : Option (List String))
    (fuel : Nat) : Option FileNode :=
  buildFileTreeWithFilter gm cfg fs
    (newGitignoreFilter cfg.basePath gitignoreLines) fuel cfg.basePath 0

/-- Model of validateFilePath: Clean the caller path, reject when the cleaned
form contains ".." anywhere as a substring, join onto the base, recompute the
base-relative path and reject when that fails or starts with "..". -/
def validateFilePath (basePath : String) (filePath : String) : Except String String :=
  let cleanPath := goClean filePath
  if strContains cleanPath ".." then Except.error "path traversal not allowed"
  else
    let fullPath := goJoin basePath cleanPath
    match goRel basePath fullPath with
    | none => Except.error "path outside of allowed directory"
    | some relPath =>
      if strStarts relPath ".." then Except.error "path outside of allowed directory"
      else Except.ok fullPath

/-- The failures of handleReadFileContents.  The Go handler renders each as a
formatted message; tooLarge carries the actual and the allowed size, which
the message reports (the float rendering of the message is presentation and
not modelled). -/
inductive ReadError where
  | invalidPath (msg : String)
  | notFound
  | tooLarge (actual allowed : Nat)
  | readFailure
  deriving DecidableEq

/-- The success payload of handleReadFileContents. -/
structure ReadOk where
  file_path : String
  size_bytes : Nat
  content : String
  deriving DecidableEq

/-- Model of handleReadFileContents: validate the path, stat it, enforce the
size ceiling (strictly-greater fails), then read.  stat and readF are the
filesystem environment (os.Stat size and os.ReadFile). -/
def handleReadFileContents (cfg : Config) (stat : String → Option Nat)
    (readF : String → Option String) (filePath : String) : Except ReadError ReadOk :=
  match validateFilePath cfg.basePath filePath with
  | Except.error e => Except.error (ReadError.invalidPath e)
  | Except.ok fullPath =>
    match stat fullPath with
    | none => Except.error ReadError.notFound
    | some size =>
      if size > cfg.maxFileSize then Except.error (ReadError.tooLarge size cfg.maxFileSize)
      else
        match readF fullPath with
        | none => Except.error ReadError.readFailure
        | some content => Except.ok ⟨filePath, size, content⟩

/-- The condition under which the second validateFilePath check fires: the
recomputed base-relative path is unresolvable or starts with "..". -/
def relEscapes (basePath filePath : String) : Bool :=
  match goRel basePath (goJoin basePath (goClean filePath)) with
  | none => true
  | some r => strStarts r ".."

/-!
Search engine: the grep invocation, the raw-output parser and the per-query
result assembly.  The Go parser accumulates lines into a map keyed by the
relative file path and then ranges over that map; Go map iteration order is
unspecified, so the conversion of the accumulated groups to the final list
is modelled by an explicit reordering oracle constrained to produce a
permutation (IsMapIterOrder).
-/

/-- The argument list executeGrepQuery hands to the external grep process. -/
def grepArgs (cfg : Config) (q : GrepQuery) (contextLines : Int) : List String :=
  (if contextLines > 0 then ["-C", toString contextLines] else []) ++
    ["-n"] ++
    (if q.ignoreCase = some true then ["-i"] else []) ++
    ["-r"] ++ [q.pattern] ++
    (match q.filePattern with
     | some fp => ["--include=" ++ fp]
     | none => []) ++
    [cfg.basePath]

/-- Outcome of running the external grep process (exec.Cmd.Output): captured
standard output on a zero exit status, a non-zero exit status (exec.ExitError),
or any other failure such as a missing binary. -/
inductive ProcResult where
  | output (stdout : String)
  | exited (code : Nat)
  | failed

/-- One raw output line matched against the shape the parser's regular
expression accepts: a nonempty colon-free file path, a colon, a nonempty
digit run, then a separator that is a colon (match line), a pipe or a dash
(context line), then the content.  Lines of any other shape yield none. -/
def parseGrepLine (line : String) : Option (String × Nat × Char × String) :=
  let g1 := line.data.takeWhile (fun c => !(c == ':'))
  if g1.isEmpty then none
  else
    match line.data.dropWhile (fun c => !(c == ':')) with
    | [] => none
    | _ :: rest1 =>
      let digits := rest1.takeWhile Char.isDigit
      if digits.isEmpty then none
      else
        match rest1.dropWhile Char.isDigit with
        | [] => none
        | sep :: content =>
          if sep == ':' || sep == '|' || sep == '-' then
            some (⟨g1⟩, digits.foldl (fun acc c => acc * 10 + (c.toNat - '0'.toNat)) 0,
                  sep, ⟨content⟩)
          else none

/-- Appends one parsed line to the group of its file key, creating the group
at the end on first sight; this is the assoc-list view of the Go map insert
plus slice append, keyed in first-seen order. -/
def accumLine (acc : List (String × List GrepLine)) (key : String) (gl : GrepLine) :
    List (String × List GrepLine) :=
  match acc with
  | [] => [(key, [gl])]
  | (k, ls) :: t =>
    if k == key then (k, ls ++ [gl]) :: t
    else (k, ls) :: accumLine t key gl

/-- The per-file line groups parseGrepOutput accumulates, in first-seen-key
order: trim the whole output, split into lines, skip separator lines and
lines the regular expression rejects, convert the file path to base-relative
(keeping it as-is when that fails), and append to the file's group. -/
def parseGrepGroups (basePath output : String) : List (String × List GrepLine) :=
  if output == "" then []
  else
    (strSplitChar '\n' (goTrimSpace output)).foldl
      (fun acc line =>
        if line == "--" then acc
        else
          match parseGrepLine line with
          | none => acc
          | some (fp, n, sep, content) =>
            accumLine acc ((goRel basePath fp).getD fp)
              { lineNumber := n, content := content, isMatch := sep == ':' })
      []

/-- A reordering oracle is a valid model of Go map range order when it emits
each accumulated group exactly once, in some order. -/
def IsMapIterOrder
    (perm : List (String × List GrepLine) → List (String × List GrepLine)) : Prop :=
  ∀ l, List.Perm (perm l) l

/-- Model of parseGrepOutput: the accumulated groups, emitted in the order
the map range oracle chooses. -/
def parseGrepOutput
    (perm : List (String × List GrepLine) → List (String × List GrepLine))
    (basePath output : String) : List GrepMatchResult :=
  (perm (parseGrepGroups basePath output)).map (fun p => ⟨p.1, p.2⟩)

/-- Modelled from the spec: the matches sequence in first-seen-key order,
exactly as section 4.4 of the design describes the map-to-sequence
conversion.  Kept separate from parseGrepOutput so the two can be compared. -/
def parseGrepOutputFirstSeen (basePath output : String) : List GrepMatchResult :=
  (parseGrepGroups basePath output).map (fun p => ⟨p.1, p.2⟩)

/-- Model of executeGrepQuery: run grep, treat exit status 1 as a clean empty
result, any other abnormal outcome as a command failure, and parse the
captured output on success. -/
def executeGrepQuery
    (perm : List (String × List GrepLine) → List (String × List GrepLine))
    (env : List String → ProcResult) (cfg : Config) (q : GrepQuery)
    (contextLines : Int) : Except String GrepResult :=
  match env (grepArgs cfg q contextLines) with
  | ProcResult.exited code =>
    if code == 1 then Except.ok ⟨q.pattern, [], none⟩
    else Except.error "grep command failed"
  | ProcResult.failed => Except.error "grep command failed"
  | ProcResult.output out =>
    Except.ok ⟨q.pattern, parseGrepOutput perm cfg.basePath out, none⟩

/-- The per-query slot handleGrepSearch stores: the query's result, or a
result carrying only the echoed pattern and the error message when the
query's execution failed. -/
def runGrepQuery
    (perm : List (String × List GrepLine) → List (String × List GrepLine))
    (env : List String → ProcResult) (cfg : Config) (q : GrepQuery)
    (contextLines : Int) : GrepResult :=
  match executeGrepQuery perm env cfg q contextLines with
  | Except.error msg => ⟨q.pattern, [], some msg⟩
  | Except.ok r => r

/-- The call-level failures of handleGrepSearch. -/
inductive GrepCallError where
  | invalidQueriesEncoding
  | noQueries
  | tooManyQueries
  deriving DecidableEq

/-- The success payload of handleGrepSearch. -/
structure SearchOk where
  base_path : String
  context_lines : Int
  results : List GrepResult

/-- Model of handleGrepSearch past the transport: decoded is the outcome of
unmarshalling the queries JSON (none for a decode failure); the count checks
run before any query executes, then every query runs in order and failures
stay per-slot. -/
def handleGrepSearch
    (perm : List (String × List GrepLine) → List (String × List GrepLine))
    (env : List String → ProcResult) (cfg : Config)
    (decoded : Option (List GrepQuery)) (contextLines : Int) :
    Except GrepCallError SearchOk :=
  match decoded with
  | none => Except.error GrepCallError.invalidQueriesEncoding
  | some queries =>
    if queries.length = 0 then Except.error GrepCallError.noQueries
    else if queries.length > 20 then Except.error GrepCallError.tooManyQueries
    else
      Except.ok ⟨cfg.basePath, contextLines,
        queries.map (fun q => runGrepQuery perm env cfg q contextLines)⟩

example : parseGrepGroups "/b" "/b/f1:1:x\n/b/f2:2:y\n--\n/b/f1:9-z" =
    [("f1", [⟨1, "x", true⟩, ⟨9, "z", false⟩]), ("f2", [⟨2, "y", true⟩])] := by decide
example : parseGrepLine "f:12|x" = some ("f", 12, '|', "x") := by decide
example : parseGrepLine "f:12x:3:y" = none := by decide
example : parseGrepLine ":1:x" = none := by decide
example : parseGrepLine "f::3:y" = none := by decide

/-!
Concrete fixtures used by the witness theorems.
-/

def cfg0 : Config := ⟨":3001", "/b", 10⟩

def cfgSmall : Config := ⟨":3001", "/b", 2⟩

def q0 : GrepQuery := ⟨"pat", none, none⟩

def stat0 : String → Option Nat :=
  fun p => if p == "/b/a.txt" then some 3 else none

def read0 : String → Option String :=
  fun p => if p == "/b/a.txt" then some "abc" else none

/-- C1, claim as stated, refuted: the reversal oracle is a legitimate map
iteration order, and under it the parsed matches sequence for a two-file
output is not in first-seen-key order. -/
theorem c1_counterexample :
    IsMapIterOrder (fun l => l.reverse) ∧
    parseGrepOutput (fun l => l.reverse) "/b" "/b/f1:1:x\n/b/f2:2:y" ≠
      parseGrepOutputFirstSeen "/b" "/b/f1:1:x\n/b/f2:2:y" :=
  ⟨fun l => List.reverse_perm l, by decide⟩

/-- C1 (amended): for every raw grep output, the parsed matches sequence is a
permutation of the first-seen-key-order group sequence — one GrepMatchResult
per distinct file key with that key's lines in encounter order — but the
group order itself is whatever the map iteration order produces, not
necessarily first-seen order. -/
theorem c1_parse_groups_perm_of_first_seen
    (perm : List (String × List GrepLine) → List (String × List GrepLine))
    (hperm : IsMapIterOrder perm) (basePath output : String) :
    List.Perm (parseGrepOutput perm basePath output)
      (parseGrepOutputFirstSeen basePath output) :=
  List.Perm.map _ (hperm (parseGrepGroups basePath output))

theorem c1_witness :
    IsMapIterOrder (fun l => l) ∧
    List.Perm (parseGrepOutput (fun l => l) "/b" "/b/f1:1:x\n/b/f2:2:y")
      (parseGrepOutputFirstSeen "/b" "/b/f1:1:x\n/b/f2:2:y") :=
  ⟨fun l => List.Perm.refl l,
   c1_parse_groups_perm_of_first_seen (fun l => l) (fun l => List.Perm.refl l)
     "/b" "/b/f1:1:x\n/b/f2:2:y"⟩

/-- C3: for every search call with 1..20 decoded queries the call succeeds
with exactly one GrepResult per query in input order, each slot depending
only on its own query's execution, and a failed execution fills only that
slot's error field with empty matches. -/
theorem c3_one_result_per_query
    (perm : List (String × List GrepLine) → List (String × List GrepLine))
    (env : List String → ProcResult) (cfg : Config) (qs : List GrepQuery)
    (ctx : Int) (h1 : 1 ≤ qs.length) (h2 : qs.length ≤ 20) :
    ∃ out, handleGrepSearch perm env cfg (some qs) ctx = Except.ok out ∧
      out.results.length = qs.length ∧
      (∀ i (hi : i < qs.length),
        out.results[i]? = some (runGrepQuery perm env cfg qs[i] ctx)) ∧
      (∀ i (hi : i < qs.length) msg,
        executeGrepQuery perm env cfg qs[i] ctx = Except.error msg →
        out.results[i]? = some ⟨qs[i].pattern, [], some msg⟩) := by
  refine ⟨⟨cfg.basePath, ctx, qs.map (fun q => runGrepQuery perm env cfg q ctx)⟩,
    ?_, ?_, ?_, ?_⟩
  · have h0 : ¬ qs.length = 0 := by omega
    have h20 : ¬ qs.length > 20 := by omega
    simp [handleGrepSearch, h0, h20]
  · simp
  · intro i hi
    simp [List.getElem?_map, List.getElem?_eq_getElem hi]
  · intro i hi msg hmsg
    simp [List.getElem?_map, List.getElem?_eq_getElem hi, runGrepQuery, hmsg]

theorem c3_witness :
    1 ≤ ([q0] : List GrepQuery).length ∧ ([q0] : List GrepQuery).length ≤ 20 ∧
    ∃ out, handleGrepSearch (fun l => l) (fun _ => ProcResult.exited 2) cfg0
        (some [q0]) 5 = Except.ok out ∧ out.results.length = 1 := by
  refine ⟨by decide, by decide, ?_⟩
  obtain ⟨out, hok, hlen, _, _⟩ :=
    c3_one_result_per_query (fun l => l) (fun _ => ProcResult.exited 2) cfg0
      [q0] 5 (by decide) (by decide)
  exact ⟨out, hok, hlen⟩

/-- C4: exit status 1 of the external grep process yields an empty, error-free
result; any other non-zero exit status or a spawn failure yields a result
with the error set and no matches; a zero exit status hands the captured
output to the parser; and the error field is set exactly when the process
failed in some way other than the no-matches status. -/
theorem c4_exit_status_interpretation
    (perm : List (String × List GrepLine) → List (String × List GrepLine))
    (env : List String → ProcResult) (cfg : Config) (q : GrepQuery) (ctx : Int) :
    (env (grepArgs cfg q ctx) = ProcResult.exited 1 →
      runGrepQuery perm env cfg q ctx = ⟨q.pattern, [], none⟩) ∧
    (∀ code, code ≠ 1 → env (grepArgs cfg q ctx) = ProcResult.exited code →
      runGrepQuery perm env cfg q ctx = ⟨q.pattern, [], some "grep command failed"⟩) ∧
    (env (grepArgs cfg q ctx) = ProcResult.failed →
      runGrepQuery perm env cfg q ctx = ⟨q.pattern, [], some "grep command failed"⟩) ∧
    (∀ out, env (grepArgs cfg q ctx) = ProcResult.output out →
      runGrepQuery perm env cfg q ctx =
        ⟨q.pattern, parseGrepOutput perm cfg.basePath out, none⟩) ∧
    ((runGrepQuery perm env cfg q ctx).error ≠ none ↔
      env (grepArgs cfg q ctx) = ProcResult.failed ∨
        ∃ code, code ≠ 1 ∧ env (grepArgs cfg q ctx) = ProcResult.exited code) := by
  refine ⟨?_, ?_, ?_, ?_, ?_⟩
  · intro h; simp [runGrepQuery, executeGrepQuery, h]
  · intro code hc h; simp [runGrepQuery, executeGrepQuery, h, hc]
  · intro h; simp [runGrepQuery, executeGrepQuery, h]
  · intro out h; simp [runGrepQuery, executeGrepQuery, h]
  · cases henv : env (grepArgs cfg q ctx) with
    | output s => simp [runGrepQuery, executeGrepQuery, henv]
    | exited code =>
      by_cases hc : code = 1 <;>
        simp [runGrepQuery, executeGrepQuery, henv, hc]
    | failed => simp [runGrepQuery, executeGrepQuery, henv]

theorem c4_witness :
    runGrepQuery (fun l => l) (fun _ => ProcResult.exited 1) cfg0 q0 5 =
      ⟨"pat", [], none⟩ :=
  (c4_exit_status_interpretation (fun l => l) (fun _ => ProcResult.exited 1)
    cfg0 q0 5).1 rfl

/-- C5: zero decoded queries fail the whole call, more than twenty fail the
whole call, exactly twenty pass count validation, and every call-level
validation error is decided independently of the process environment, hence
before any external process runs. -/
theorem c5_query_count_validation
    (perm : List (String × List GrepLine) → List (String × List GrepLine))
    (env : List String → ProcResult) (cfg : Config) (ctx : Int) :
    handleGrepSearch perm env cfg none ctx =
      Except.error GrepCallError.invalidQueriesEncoding ∧
    handleGrepSearch perm env cfg (some []) ctx =
      Except.error GrepCallError.noQueries ∧
    (∀ qs : List GrepQuery, qs.length = 21 →
      handleGrepSearch perm env cfg (some qs) ctx =
        Except.error GrepCallError.tooManyQueries) ∧
    (∀ qs : List GrepQuery, qs.length = 20 →
      ∃ out, handleGrepSearch perm env cfg (some qs) ctx = Except.ok out ∧
        out.results.length = 20) ∧
    (∀ qs er perm2 env2,
      handleGrepSearch perm env cfg (some qs) ctx = Except.error er →
      handleGrepSearch perm2 env2 cfg (some qs) ctx = Except.error er) := by
  refine ⟨rfl, rfl, ?_, ?_, ?_⟩
  · intro qs h
    have h0 : ¬ qs.length = 0 := by omega
    have h20 : qs.length > 20 := by omega
    simp [handleGrepSearch, h0, h20]
  · intro qs h
    have h0 : ¬ qs.length = 0 := by omega
    have h20 : ¬ qs.length > 20 := by omega
    refine ⟨⟨cfg.basePath, ctx, qs.map (fun q => runGrepQuery perm env cfg q ctx)⟩, ?_, ?_⟩
    · simp [handleGrepSearch, h0, h20]
    · simp [h]
  · intro qs er perm2 env2 h
    by_cases h0 : qs.length = 0
    · simpa [handleGrepSearch, h0] using h
    · by_cases h20 : qs.length > 20
      · simpa [handleGrepSearch, h0, h20] using h
      · simp [handleGrepSearch, h0, h20] at h

theorem c5_witness :
    handleGrepSearch (fun l => l) (fun _ => ProcResult.failed) cfg0 none 5 =
      Except.error GrepCallError.invalidQueriesEncoding ∧
    handleGrepSearch (fun l => l) (fun _ => ProcResult.failed) cfg0 (some []) 5 =
      Except.error GrepCallError.noQueries ∧
    handleGrepSearch (fun l => l) (fun _ => ProcResult.failed) cfg0
      (some (List.replicate 21 q0)) 5 = Except.error GrepCallError.tooManyQueries ∧
    ∃ out, handleGrepSearch (fun l => l) (fun _ => ProcResult.failed) cfg0
        (some (List.replicate 20 q0)) 5 = Except.ok out ∧ out.results.length = 20 := by
  obtain ⟨ha, hb, hc, hd, _⟩ :=
    c5_query_count_validation (fun l => l) (fun _ => ProcResult.failed) cfg0 5
  exact ⟨ha, hb, hc (List.replicate 21 q0) (by simp),
    hd (List.replicate 20 q0) (by simp)⟩

/-- C6: for a validated path whose file stats at size S and reads back S
bytes, a size within the ceiling returns the full content with size_bytes
equal to S, and a size above the ceiling fails with a too-large error
carrying both the actual and the allowed size. -/
theorem c6_read_contents_size_gate
    (cfg : Config) (stat : String → Option Nat) (readF : String → Option String)
    (fp full : String) (S : Nat) (c : String)
    (hval : validateFilePath cfg.basePath fp = Except.ok full)
    (hstat : stat full = some S) (hread : readF full = some c)
    (_hlen : c.length = S) :
    (S ≤ cfg.maxFileSize →
      handleReadFileContents cfg stat readF fp = Except.ok ⟨fp, S, c⟩) ∧
    (cfg.maxFileSize < S →
      handleReadFileContents cfg stat readF fp =
        Except.error (ReadError.tooLarge S cfg.maxFileSize)) := by
  constructor
  · intro hle
    simp [handleReadFileContents, hval, hstat, hread, Nat.not_lt.mpr hle]
  · intro hgt
    simp [handleReadFileContents, hval, hstat, hgt]

theorem c6_witness :
    handleReadFileContents cfg0 stat0 read0 "a.txt" =
      Except.ok ⟨"a.txt", 3, "abc"⟩ ∧
    handleReadFileContents cfgSmall stat0 read0 "a.txt" =
      Except.error (ReadError.tooLarge 3 2) :=
  ⟨(c6_read_contents_size_gate cfg0 stat0 read0 "a.txt" "/b/a.txt" 3 "abc"
      rfl rfl rfl rfl).1 (by decide),
   (c6_read_contents_size_gate cfgSmall stat0 read0 "a.txt" "/b/a.txt" 3 "abc"
      rfl rfl rfl rfl).2 (by decide)⟩

/-- C10: path validation rejects, as path traversal, every input whose
syntactically cleaned form contains ".." anywhere as a substring, including
names such as "notes..txt" whose two dots sit inside a single segment and
which never leave the base directory. -/
theorem c10_dotdot_substring_rejected (basePath fp : String)
    (h : strContains (goClean fp) ".." = true) :
    validateFilePath basePath fp = Except.error "path traversal not allowed" := by
  simp [validateFilePath, h]

theorem c10_witness :
    strContains (goClean "notes..txt") ".." = true ∧
    validateFilePath "/b" "notes..txt" = Except.error "path traversal not allowed" :=
  ⟨by decide, c10_dotdot_substring_rejected "/b" "notes..txt" (by decide)⟩

/-!
Lemmas connecting segments, substrings and trimming, used for C2 and C7.
-/

theorem splitCharList_ne_nil (sep : Char) (cs : List Char) :
    splitCharList sep cs ≠ [] := by
  cases cs with
  | nil => simp [splitCharList]
  | cons c t =>
    unfold splitCharList
    split
    · simp
    · split <;> simp

theorem splitCharList_head_pref (sep : Char) (cs : List Char) :
    listIsPref ((splitCharList sep cs).headD []) cs = true := by
  induction cs with
  | nil => simp [splitCharList, listIsPref]
  | cons c t ih =>
    cases hsp : splitCharList sep t with
    | nil => exact absurd hsp (splitCharList_ne_nil sep t)
    | cons hh tt =>
      by_cases h : c == sep
      · simp [splitCharList, h, listIsPref]
      · rw [hsp] at ih
        simp only [List.headD_cons] at ih
        simp [splitCharList, h, hsp, listIsPref, ih]

theorem pref_contains (cs sub : List Char) (h : listIsPref sub cs = true) :
    strContainsList cs sub = true := by
  cases cs with
  | nil =>
    cases sub with
    | nil => simp [strContainsList]
    | cons a b => simp [listIsPref] at h
  | cons c t => simp [strContainsList, h]

theorem mem_splitCharList_contains (sep : Char) (cs : List Char) (part : List Char)
    (h : part ∈ splitCharList sep cs) : strContainsList cs part = true := by
  induction cs with
  | nil =>
    simp [splitCharList] at h
    subst h
    simp [strContainsList]
  | cons c t ih =>
    by_cases hc : c == sep
    · simp only [splitCharList, hc, if_pos] at h
      rcases List.mem_cons.mp h with h | h
      · subst h; simp [strContainsList, listIsPref]
      · have := ih h
        simp [strContainsList, this]
    · cases hsp : splitCharList sep t with
      | nil => exact absurd hsp (splitCharList_ne_nil sep t)
      | cons hh tt =>
        simp only [splitCharList, hc, Bool.false_eq_true, if_false, hsp] at h
        rcases List.mem_cons.mp h with h | h
        · subst h
          apply pref_contains
          have hp := splitCharList_head_pref sep t
          rw [hsp] at hp
          simp only [List.headD_cons] at hp
          simp [listIsPref, hp]
        · have hmem : part ∈ splitCharList sep t := by
            rw [hsp]; exact List.mem_cons_of_mem _ h
          have := ih hmem
          simp [strContainsList, this]

theorem hasDotDot_contains (s : String) (h : hasDotDotSegment s = true) :
    strContains s ".." = true := by
  unfold hasDotDotSegment at h
  rw [List.any_eq_true] at h
  obtain ⟨seg, hmem, hseg⟩ := h
  have hseg' : seg = ['.', '.'] := by simpa using hseg
  subst hseg'
  exact mem_splitCharList_contains '/' s.data ['.', '.'] hmem

/-- validateFilePath with its let bindings unfolded, for case analysis. -/
theorem validateFilePath_eq (basePath fp : String) :
    validateFilePath basePath fp =
      if strContains (goClean fp) ".." then Except.error "path traversal not allowed"
      else
        match goRel basePath (goJoin basePath (goClean fp)) with
        | none => Except.error "path outside of allowed directory"
        | some relPath =>
          if strStarts relPath ".." then Except.error "path outside of allowed directory"
          else Except.ok (goJoin basePath (goClean fp)) := rfl

/-- C2 (counterexample): the relative path "a/../b" contains a
parent-directory segment before normalization, yet validation accepts it and
the file is read. -/
theorem c2_counterexample :
    hasDotDotSegment "a/../b" = true ∧
    validateFilePath "/b" "a/../b" = Except.ok "/b/b" ∧
    handleReadFileContents cfg0 (fun p => if p == "/b/b" then some 1 else none)
      (fun p => if p == "/b/b" then some "z" else none) "a/../b" =
      Except.ok ⟨"a/../b", 1, "z"⟩ :=
  ⟨by decide, rfl, rfl⟩

/-- C2 (amended): for every relative path whose syntactically normalized form
contains a parent-directory segment, or whose recomputed base-relative path
after joining is unresolvable or begins with a parent-directory segment,
path validation for read_file_contents fails with a path-traversal error and
no file is read.  (Parent segments removed by normalization, as in "a/../b",
are accepted.) -/
theorem c2_traversal_rejected
    (cfg : Config) (stat : String → Option Nat) (readF : String → Option String)
    (fp : String)
    (h : hasDotDotSegment (goClean fp) = true ∨ relEscapes cfg.basePath fp = true) :
    ∃ e, handleReadFileContents cfg stat readF fp =
      Except.error (ReadError.invalidPath e) := by
  have hval : ∃ e, validateFilePath cfg.basePath fp = Except.error e := by
    by_cases hc : strContains (goClean fp) ".." = true
    · exact ⟨_, by rw [validateFilePath_eq, if_pos hc]⟩
    · have hdd : ¬ hasDotDotSegment (goClean fp) = true :=
        fun hh => hc (hasDotDot_contains _ hh)
      have hre : relEscapes cfg.basePath fp = true := by tauto
      unfold relEscapes at hre
      rw [validateFilePath_eq, if_neg hc]
      cases hrel : goRel cfg.basePath (goJoin cfg.basePath (goClean fp)) with
      | none => exact ⟨_, rfl⟩
      | some r =>
        rw [hrel] at hre
        have hr2 : strStarts r ".." = true := hre
        refine ⟨"path outside of allowed directory", ?_⟩
        simp [hr2]
  obtain ⟨e, hv⟩ := hval
  exact ⟨e, by simp [handleReadFileContents, hv]⟩

theorem c2_witness :
    hasDotDotSegment (goClean "../x") = true ∧
    ∃ e, handleReadFileContents cfg0 stat0 read0 "../x" =
      Except.error (ReadError.invalidPath e) :=
  ⟨by decide, c2_traversal_rejected cfg0 stat0 read0 "../x" (Or.inl (by decide))⟩

theorem dropWhile_append_bang (p : Char → Bool) (hp : p '!' = false)
    (ys : List Char) : ∃ zs, (ys ++ ['!']).dropWhile p = zs ++ ['!'] := by
  induction ys with
  | nil => exact ⟨[], by simp [List.dropWhile_cons, hp]⟩
  | cons y ys ih =>
    by_cases hy : p y
    · simpa [List.dropWhile_cons, hy] using ih
    · exact ⟨y :: ys, by simp [List.dropWhile_cons, hy]⟩

theorem trim_bang (l : String) (h : strStarts l "!" = true) :
    strStarts (goTrimSpace l) "!" = true := by
  obtain ⟨rest, hd⟩ : ∃ rest, l.data = '!' :: rest := by
    cases hld : l.data with
    | nil => rw [strStarts, hld] at h; simp [listIsPref] at h
    | cons c cs =>
      rw [strStarts, hld] at h
      simp only [listIsPref, Bool.and_eq_true, beq_iff_eq] at h
      exact ⟨cs, by rw [h.1]⟩
  have hsp : isGoSpace '!' = false := by decide
  unfold goTrimSpace trimLeftChars trimRightChars
  rw [hd]
  rw [List.dropWhile_cons, hsp]
  simp only [Bool.false_eq_true, if_false, List.reverse_cons]
  obtain ⟨zs, hz⟩ := dropWhile_append_bang isGoSpace hsp rest.reverse
  rw [hz, List.reverse_append]
  simp [strStarts, listIsPref]

/-- C7: ignore-file lines beginning with the negation marker are dropped
entirely during filter construction — the filter built with such a line
equals the filter built without it — so adding a negation line never turns
an ignored path into an accepted one. -/
theorem c7_negation_lines_inert (basePath : String) (l1 l2 : List String)
    (neg : String)
    (h : strStarts neg "!" = true ∨ strStarts (goTrimSpace neg) "!" = true) :
    newGitignoreFilter basePath (some (l1 ++ neg :: l2)) =
      newGitignoreFilter basePath (some (l1 ++ l2)) ∧
    ∀ gm p, shouldIgnore gm (newGitignoreFilter basePath (some (l1 ++ l2))) p = true →
      shouldIgnore gm (newGitignoreFilter basePath (some (l1 ++ neg :: l2))) p = true := by
  have ht : strStarts (goTrimSpace neg) "!" = true := by
    cases h with
    | inl h => exact trim_bang neg h
    | inr h => exact h
  have hnone : parseGitignoreLine neg = none := by
    unfold parseGitignoreLine
    simp [ht]
  have heq : newGitignoreFilter basePath (some (l1 ++ neg :: l2)) =
      newGitignoreFilter basePath (some (l1 ++ l2)) := by
    unfold newGitignoreFilter
    simp [List.filterMap_append, List.filterMap_cons, hnone]
  exact ⟨heq, fun gm p hig => by rw [heq]; exact hig⟩

theorem c7_witness :
    newGitignoreFilter "/b" (some (["a"] ++ "!a" :: [])) =
      newGitignoreFilter "/b" (some (["a"] ++ [])) ∧
    shouldIgnore (fun pat nm => pat == nm)
      (newGitignoreFilter "/b" (some (["a"] ++ "!a" :: []))) "/b/a" = true := by
  obtain ⟨heq, himp⟩ := c7_negation_lines_inert "/b" ["a"] [] "!a" (Or.inl (by decide))
  exact ⟨heq, himp (fun pat nm => pat == nm) "/b/a" (by decide)⟩

/-!
Tree invariants: every node the builder emits has a path that passed the
version-control guard, the file/directory shape discipline, and the
base-relative path of the directory-walk position that produced it.
-/

theorem relDisplay_not_git (gm : String → String → Bool) (filter : GitignoreFilter)
    (b p : String) (hbp : filter.basePath = b)
    (hig : shouldIgnore gm filter p = false) :
    strStarts (relDisplay b p) ".git" = false ∧
    strContains (relDisplay b p) "/.git" = false := by
  unfold shouldIgnore at hig
  rw [hbp] at hig
  unfold relDisplay
  cases hrel : goRel b p with
  | none =>
    exact ⟨by decide, by decide⟩
  | some r =>
    rw [hrel] at hig
    have hig2 : (if gitSegCheck r = true then true
        else filter.patterns.any (ignorePatternHit gm r (goBase p))) = false := hig
    have hgit : strStarts r ".git" = false ∧ strContains r "/.git" = false := by
      cases hg : gitSegCheck r with
      | true => rw [hg] at hig2; simp at hig2
      | false =>
        unfold gitSegCheck at hg
        rw [Bool.or_eq_false_iff] at hg
        exact hg
    by_cases hr : r = "."
    · subst hr
      exact ⟨by decide, by decide⟩
    · have hr2 : (r == ".") = false := by simpa using hr
      simp only [Option.getD_some]
      have hred : (if (r == ".") = true then "" else r) = r := by simp [hr2]
      rw [hred]
      exact hgit

theorem build_no_git_nodes (gm : String → String → Bool) (cfg : Config)
    (fs : String → Option FSEntry) (filter : GitignoreFilter)
    (hbp : filter.basePath = cfg.basePath) :
    ∀ fuel dirPath depth node m,
      buildFileTreeWithFilter gm cfg fs filter fuel dirPath depth = some node →
      NodeMem m node →
      strStarts m.path ".git" = false ∧ strContains m.path "/.git" = false := by
  intro fuel
  induction fuel with
  | zero =>
    intro dirPath depth node m h _
    simp [buildFileTreeWithFilter] at h
  | succ fuel ih =>
    intro dirPath depth node m h hm
    simp only [buildFileTreeWithFilter] at h
    cases hig : shouldIgnore gm filter dirPath with
    | true => rw [hig] at h; simp at h
    | false =>
      rw [hig] at h
      simp only [Bool.false_eq_true, if_false] at h
      cases hfs : fs dirPath with
      | none =>
        rw [hfs] at h
        have h2 : (none : Option FileNode) = some node := h
        simp at h2
      | some entry =>
        cases entry with
        | file size =>
          rw [hfs] at h
          have h2 : some (FileNode.mk (goBase dirPath) "file" (some size) []
              (relDisplay cfg.basePath dirPath)) = some node := h
          injection h2 with h2
          subst h2
          cases hm with
          | refl =>
            simp only [FileNode.path]
            exact relDisplay_not_git gm filter cfg.basePath dirPath hbp hig
          | child hc _ => simp [FileNode.children] at hc
        | dir oents =>
          cases oents with
          | none =>
            rw [hfs] at h
            have h2 : (none : Option FileNode) = some node := h
            simp at h2
          | some entries =>
            rw [hfs] at h
            have h2 : some (FileNode.mk (goBase dirPath) "directory" none
                (entries.filterMap (fun nm =>
                  if shouldIgnore gm filter (goJoin dirPath nm) then none
                  else buildFileTreeWithFilter gm cfg fs filter fuel
                    (goJoin dirPath nm) (depth + 1)))
                (relDisplay cfg.basePath dirPath)) = some node := h
            injection h2 with h2
            subst h2
            cases hm with
            | refl =>
              simp only [FileNode.path]
              exact relDisplay_not_git gm filter cfg.basePath dirPath hbp hig
            | child hc hm2 =>
              simp only [FileNode.children] at hc
              rw [List.mem_filterMap] at hc
              obtain ⟨nm, hnm, hf⟩ := hc
              cases hig2 : shouldIgnore gm filter (goJoin dirPath nm) with
              | true => rw [hig2] at hf; simp at hf
              | false =>
                rw [hig2] at hf
                simp only [Bool.false_eq_true, if_false] at hf
                exact ih (goJoin dirPath nm) (depth + 1) _ m hf hm2

/-- C8: the structure operation never emits a node for the version-control
metadata directory or any of its descendants: no node's path starts with
".git" (covering ".git" itself and everything below it) or contains "/.git"
(covering a nested metadata directory), whatever the ignore file holds. -/
theorem c8_no_git_nodes (gm : String → String → Bool) (cfg : Config)
    (fs : String → Option FSEntry) (gitignoreLines : Option (List String))
    (fuel : Nat) (root : FileNode)
    (h : handleReadFileStructure gm cfg fs gitignoreLines fuel = some root) :
    ∀ m, NodeMem m root →
      strStarts m.path ".git" = false ∧ strContains m.path "/.git" = false := by
  intro m hm
  exact build_no_git_nodes gm cfg fs
    (newGitignoreFilter cfg.basePath gitignoreLines) rfl fuel cfg.basePath 0
    root m h hm

def gmFalse : String → String → Bool := fun _ _ => false

def fs0 : String → Option FSEntry := fun p =>
  if p == "/b" then some (FSEntry.dir (some ["a.txt"]))
  else if p == "/b/a.txt" then some (FSEntry.file 3) else none

def child0 : FileNode := FileNode.mk "a.txt" "file" (some 3) [] "a.txt"

def root0 : FileNode := FileNode.mk "b" "directory" none [child0] ""

theorem c8_witness :
    strStarts child0.path ".git" = false ∧ strContains child0.path "/.git" = false := by
  have hmem : child0 ∈ root0.children := by
    simp [root0, FileNode.children]
  exact c8_no_git_nodes gmFalse cfg0 fs0 none 2 root0 rfl child0
    (NodeMem.child hmem (NodeMem.refl child0))

/-- The shape discipline of FileNode values: file nodes carry a size and no
children, directory nodes carry no size. -/
def typedInv (n : FileNode) : Prop :=
  (n.ftype = "file" ∧ n.children = [] ∧ ∃ s, n.size = some s) ∨
  (n.ftype = "directory" ∧ n.size = none)

theorem build_node_shape (gm : String → String → Bool) (cfg : Config)
    (fs : String → Option FSEntry) (filter : GitignoreFilter) :
    ∀ fuel dirPath depth node,
      buildFileTreeWithFilter gm cfg fs filter fuel dirPath depth = some node →
      node.path = relDisplay cfg.basePath dirPath ∧
      ∀ m, NodeMem m node → typedInv m ∧
        ∃ q f2 d2, buildFileTreeWithFilter gm cfg fs filter f2 q d2 = some m ∧
          m.path = relDisplay cfg.basePath q := by
  intro fuel
  induction fuel with
  | zero =>
    intro dirPath depth node h
    simp [buildFileTreeWithFilter] at h
  | succ fuel ih =>
    intro dirPath depth node h
    have h0 := h
    simp only [buildFileTreeWithFilter] at h
    cases hig : shouldIgnore gm filter dirPath with
    | true => rw [hig] at h; simp at h
    | false =>
      rw [hig] at h
      simp only [Bool.false_eq_true, if_false] at h
      cases hfs : fs dirPath with
      | none =>
        rw [hfs] at h
        have h2 : (none : Option FileNode) = some node := h
        simp at h2
      | some entry =>
        cases entry with
        | file size =>
          rw [hfs] at h
          have h2 : some (FileNode.mk (goBase dirPath) "file" (some size) []
              (relDisplay cfg.basePath dirPath)) = some node := h
          injection h2 with h2
          subst h2
          refine ⟨rfl, ?_⟩
          intro m hm
          cases hm with
          | refl =>
            exact ⟨Or.inl ⟨rfl, rfl, size, rfl⟩, dirPath, fuel + 1, depth, h0, rfl⟩
          | child hc _ => simp [FileNode.children] at hc
        | dir oents =>
          cases oents with
          | none =>
            rw [hfs] at h
            have h2 : (none : Option FileNode) = some node := h
            simp at h2
          | some entries =>
            rw [hfs] at h
            have h2 : some (FileNode.mk (goBase dirPath) "directory" none
                (entries.filterMap (fun nm =>
                  if shouldIgnore gm filter (goJoin dirPath nm) then none
                  else buildFileTreeWithFilter gm cfg fs filter fuel
                    (goJoin dirPath nm) (depth + 1)))
                (relDisplay cfg.basePath dirPath)) = some node := h
            injection h2 with h2
            subst h2
            refine ⟨rfl, ?_⟩
            intro m hm
            cases hm with
            | refl =>
              exact ⟨Or.inr ⟨rfl, rfl⟩, dirPath, fuel + 1, depth, h0, rfl⟩
            | child hc hm2 =>
              simp only [FileNode.children] at hc
              rw [List.mem_filterMap] at hc
              obtain ⟨nm, hnm, hf⟩ := hc
              cases hig2 : shouldIgnore gm filter (goJoin dirPath nm) with
              | true => rw [hig2] at hf; simp at hf
              | false =>
                rw [hig2] at hf
                simp only [Bool.false_eq_true, if_false] at hf
                exact (ih (goJoin dirPath nm) (depth + 1) _ hf).2 m hm2

theorem relDisplay_self (b : String) : relDisplay b b = "" := by
  simp [relDisplay, goRel]

/-- C9: in every built tree, every node is either a file node with a size
and no children or a directory node with no size; the root's path is the
empty string; and every node's path is the base-relative display path of
the directory-walk position that produced it. -/
theorem c9_node_invariants (gm : String → String → Bool) (cfg : Config)
    (fs : String → Option FSEntry) (gitignoreLines : Option (List String))
    (fuel : Nat) (root : FileNode)
    (h : handleReadFileStructure gm cfg fs gitignoreLines fuel = some root) :
    root.path = "" ∧
    ∀ m, NodeMem m root → typedInv m ∧
      ∃ q f2 d2, buildFileTreeWithFilter gm cfg fs
          (newGitignoreFilter cfg.basePath gitignoreLines) f2 q d2 = some m ∧
        m.path = relDisplay cfg.basePath q := by
  have hb := build_node_shape gm cfg fs (newGitignoreFilter cfg.basePath gitignoreLines)
    fuel cfg.basePath 0 root h
  refine ⟨?_, hb.2⟩
  rw [hb.1, relDisplay_self]

theorem c9_witness :
    root0.path = "" ∧
    ((child0.ftype = "file" ∧ child0.children = [] ∧ ∃ s, child0.size = some s) ∨
      (child0.ftype = "directory" ∧ child0.size = none)) := by
  have h := c9_node_invariants gmFalse cfg0 fs0 none 2 root0 rfl
  have hmem : child0 ∈ root0.children := by simp [root0, FileNode.children]
  exact ⟨h.1, (h.2 child0 (NodeMem.child hmem (NodeMem.refl child0))).1⟩
